import Mathlib

/-!
# Verification of `trapezoid2D_integration_functions.py`

A shallow embedding of the numerical core of the custom-field-propagator
repository, together with theorems checking the specification's claims.

Conventions of the embedding:
* real scalars are modelled as rationals (`ℚ`); transcendental real
  functions (`sin`, `cos`, `exp`, square root, `arctan2`) and the constant
  `π` are abstract parameters, collected in an `Ops` structure, since no
  claim depends on their analytic values;
* complex values live in an arbitrary field `C`, with the imaginary unit,
  the complex exponential and the real-to-complex injection also abstract;
* a numpy 2D array is a total function `ℕ → ℕ → α` (`Mat α`) together with
  the row/column counts carried separately; loops writing into a
  preallocated zero array are embedded as `List.foldl` over the index
  range with explicit single-cell/single-row writes.
-/

/-- A sampled 2D field: entry `(i, j)` is row `i`, column `j`. -/
abbrev Mat (α : Type) := ℕ → ℕ → α

/-- Python indexing into an axis of length `a`: an index `k` (possibly
negative, as in `aux[i-int(a/2)]`) denotes position `k mod a`. -/
def pyIdx (a : ℕ) (k : ℤ) : ℕ := (k % (a : ℤ)).toNat

/-- Overwrite row `r` of a matrix with the given row. -/
def writeRow (m : Mat α) (r : ℕ) (row : ℕ → α) : Mat α :=
  fun i j => if i = r then row j else m i j

/-- Embedding of the nested helper `rotate_180º` (lines 269-274 and
397-402): allocate `aux = zeros`, then for each `i < a` perform
`aux[i - int(a/2), :] = matrix[i, :]`. -/
def rotate_180 [Zero α] (a : ℕ) (matrix : Mat α) : Mat α :=
  (List.range a).foldl
    (fun aux (i : ℕ) => writeRow aux (pyIdx a ((i : ℤ) - (a / 2 : ℕ))) (fun j => matrix i j))
    (fun _ _ => 0)

/-- Embedding of the nested helper `rotate_270º` (lines 276-281 and
404-409): allocate `aux = zeros`, then for each `i < a` perform
`aux[i - int(3*a/4), :] = matrix[i, :]`. -/
def rotate_270 [Zero α] (a : ℕ) (matrix : Mat α) : Mat α :=
  (List.range a).foldl
    (fun aux (i : ℕ) => writeRow aux (pyIdx a ((i : ℤ) - (3 * a / 4 : ℕ))) (fun j => matrix i j))
    (fun _ _ => 0)

lemma pyIdx_cast (a : ℕ) (ha : 0 < a) (k : ℤ) : (pyIdx a k : ℤ) = k % (a : ℤ) :=
  Int.toNat_of_nonneg (Int.emod_nonneg k (by exact_mod_cast ha.ne'))

/-- For `i < a` and `off ≤ a`, the Python index `i - off` wraps to
`(i + (a - off)) % a`. -/
lemma pyIdx_sub (a off i : ℕ) (ha : 0 < a) (hoff : off ≤ a) :
    pyIdx a ((i : ℤ) - off) = (i + (a - off)) % a := by
  have key : ((i : ℤ) - off) % a = (((i + (a - off)) % a : ℕ) : ℤ) := by
    have h1 : ((i : ℤ) - off) = ((i + (a - off) : ℕ) : ℤ) - (a : ℤ) := by
      push_cast [Nat.cast_sub hoff]
      ring
    rw [h1, Int.sub_emod, Int.emod_self, sub_zero, Int.emod_emod_of_dvd _ dvd_rfl,
      Int.natCast_mod]
  have h2 : (pyIdx a ((i : ℤ) - off) : ℤ) = (((i + (a - off)) % a : ℕ) : ℤ) := by
    rw [pyIdx_cast a ha, key]
  exact_mod_cast h2

/-- If no element of the list targets row `r`, the fold of row writes leaves
row `r` unchanged. -/
lemma foldl_writeRow_of_ne (tgt : ℕ → ℕ) (row : ℕ → ℕ → α) (l : List ℕ) (m : Mat α)
    (r j : ℕ) (h : ∀ i ∈ l, tgt i ≠ r) :
    l.foldl (fun aux i => writeRow aux (tgt i) (row i)) m r j = m r j := by
  induction l generalizing m with
  | nil => rfl
  | cons a l ih =>
    simp only [List.foldl_cons]
    rw [ih _ (fun i hi => h i (List.mem_cons_of_mem _ hi))]
    have hne : r ≠ tgt a := fun hr => (h a (List.mem_cons_self a l)) hr.symm
    simp [writeRow, hne]

/-- If a unique element `i₀` of the list targets row `r`, the fold of row
writes puts row `i₀`'s payload there. -/
lemma foldl_writeRow_get (tgt : ℕ → ℕ) (row : ℕ → ℕ → α) (l : List ℕ) (m : Mat α)
    (r j i₀ : ℕ) (hmem : i₀ ∈ l) (htgt : tgt i₀ = r)
    (huniq : ∀ i ∈ l, tgt i = r → i = i₀) :
    l.foldl (fun aux i => writeRow aux (tgt i) (row i)) m r j = row i₀ j := by
  induction l generalizing m with
  | nil => cases hmem
  | cons a l ih =>
    simp only [List.foldl_cons]
    by_cases hal : i₀ ∈ l
    · exact ih _ hal (fun i hi hr => huniq i (List.mem_cons_of_mem _ hi) hr)
    · have ha : a = i₀ := by
        rcases List.mem_cons.mp hmem with h | h
        · exact h.symm
        · exact absurd h hal
      subst ha
      have hnone : ∀ i ∈ l, tgt i ≠ r := by
        intro i hi hir
        have hii : i = a := huniq i (List.mem_cons_of_mem _ hi) hir
        exact hal (hii ▸ hi)
      rw [foldl_writeRow_of_ne tgt row l _ r j hnone]
      simp [writeRow, htgt]

/-- Row characterization of the row-shifting loop: for any shift `off ≤ a`,
row `r` of the result is row `(r + off) % a` of the input. -/
lemma rotate_core_apply [Zero α] (a off : ℕ) (M : Mat α) (r j : ℕ)
    (hr : r < a) (hoff : off ≤ a) :
    (List.range a).foldl
        (fun aux (i : ℕ) => writeRow aux (pyIdx a ((i : ℤ) - off)) (fun j => M i j))
        (fun _ _ => 0) r j
      = M ((r + off) % a) j := by
  have ha : 0 < a := by omega
  have hi₀lt : (r + off) % a < a := Nat.mod_lt _ ha
  have htgt0 : ((r + off) % a + (a - off)) % a = r := by
    rw [Nat.mod_add_mod]
    have h1 : r + off + (a - off) = r + a := by omega
    rw [h1, Nat.add_mod_right, Nat.mod_eq_of_lt hr]
  refine foldl_writeRow_get (fun i => pyIdx a ((i : ℤ) - off)) (fun i j => M i j)
    (List.range a) _ r j ((r + off) % a) (List.mem_range.mpr hi₀lt) ?_ ?_
  · dsimp only
    rw [pyIdx_sub a off _ ha hoff]
    exact htgt0
  · intro i hi hir
    have hilt : i < a := List.mem_range.mp hi
    dsimp only at hir
    rw [pyIdx_sub a off i ha hoff] at hir
    have hmodeq : i ≡ (r + off) % a [MOD a] :=
      Nat.ModEq.add_right_cancel' (a - off) (hir.trans htgt0.symm)
    have h5 : i % a = (r + off) % a % a := hmodeq
    rw [Nat.mod_eq_of_lt hilt, Nat.mod_eq_of_lt hi₀lt] at h5
    exact h5

/-- Row characterization of `rotate_180º`. -/
lemma rotate_180_apply [Zero α] (a : ℕ) (M : Mat α) (r j : ℕ) (hr : r < a) :
    rotate_180 a M r j = M ((r + a / 2) % a) j :=
  rotate_core_apply a (a / 2) M r j hr (Nat.div_le_self a 2)

/-- Row characterization of `rotate_270º`. -/
lemma rotate_270_apply [Zero α] (a : ℕ) (M : Mat α) (r j : ℕ) (hr : r < a) :
    rotate_270 a M r j = M ((r + 3 * a / 4) % a) j :=
  rotate_core_apply a (3 * a / 4) M r j hr (by omega)

/-- A concrete 4-row matrix whose row index is its value, used to exhibit
the direction of the row shift. -/
def rowTag : Mat ℚ := fun i _ => (i : ℚ)

/-- C1 counterexample: for the 4-row matrix `rowTag` the 270°-rotator does
NOT satisfy the claimed formula `output row i = input row ((i - offset) mod r)`
with `offset = 3·r/4`: at row 0 the output is input row 3, while the claim
predicts input row `(0 - 3) mod 4 = 1`. -/
theorem rotator_claimed_formula_fails :
    ¬ (rotate_270 4 rowTag 0 0 = rowTag (pyIdx 4 ((0 : ℤ) - 3)) 0) := by
  decide

/-- C1 (amended): row `i` of the output of the angular-grid rotators equals
row `(i + offset) mod r` of the input (offset `⌊r/2⌋` for the 180° rotation
and `⌊3r/4⌋` for the 270° rotation) — the shift reads *forward*, not
backward, by the offset. -/
theorem rotator_rows_shifted_forward [Zero α] (a : ℕ) (M : Mat α) (r j : ℕ)
    (hr : r < a) :
    rotate_180 a M r j = M ((r + a / 2) % a) j ∧
    rotate_270 a M r j = M ((r + 3 * a / 4) % a) j :=
  ⟨rotate_180_apply a M r j hr, rotate_270_apply a M r j hr⟩

/-- Witness for C1's amended theorem at `a = 4`, `r = 1`. -/
theorem rotator_rows_shifted_forward_witness :
    rotate_180 4 rowTag 1 0 = rowTag ((1 + 4 / 2) % 4) 0 ∧
    rotate_270 4 rowTag 1 0 = rowTag ((1 + 3 * 4 / 4) % 4) 0 :=
  rotator_rows_shifted_forward 4 rowTag 1 0 (by decide)

/-- C7: applying the 180° row rotation twice gives back the original matrix
when the row count is even; for an odd row count the boundary handling makes
the double rotation a backward shift of the rows by one. -/
theorem rotate_180_involution [Zero α] (a : ℕ) (M : Mat α) (r j : ℕ)
    (hr : r < a) :
    (Even a → rotate_180 a (rotate_180 a M) r j = M r j) ∧
    (Odd a → rotate_180 a (rotate_180 a M) r j = M ((r + (a - 1)) % a) j) := by
  have ha : 0 < a := by omega
  have h1 : rotate_180 a (rotate_180 a M) r j
      = rotate_180 a M ((r + a / 2) % a) j := rotate_180_apply a _ r j hr
  have h2 : rotate_180 a M ((r + a / 2) % a) j
      = M (((r + a / 2) % a + a / 2) % a) j :=
    rotate_180_apply a M _ j (Nat.mod_lt _ ha)
  rw [h1, h2, Nat.mod_add_mod]
  constructor
  · intro he
    obtain ⟨k, hk⟩ := he
    have hdiv : a / 2 = k := by omega
    have hsum : r + a / 2 + a / 2 = r + a := by omega
    rw [hsum, Nat.add_mod_right, Nat.mod_eq_of_lt hr]
  · intro ho
    obtain ⟨k, hk⟩ := ho
    have hsum : r + a / 2 + a / 2 = r + (a - 1) := by omega
    rw [hsum]

/-- Witness for C7 at a 2-row and a 3-row concrete matrix position. -/
theorem rotate_180_involution_witness :
    (Even 2 → rotate_180 2 (rotate_180 2 rowTag) 1 0 = rowTag 1 0) ∧
    (Odd 2 → rotate_180 2 (rotate_180 2 rowTag) 1 0 = rowTag ((1 + (2 - 1)) % 2) 0) :=
  rotate_180_involution 2 rowTag 1 0 (by decide)

/-- Embedding of the trapezoid weight vectors built at lines 148-156,
207-215, 295-303 and 424-432: a constant vector `L/N` whose first and last
(`[-1]`, i.e. index `N-1`) entries are overwritten with `L/N/2`. -/
def weight_vector (L : ℚ) (N : ℕ) : ℕ → ℚ :=
  Function.update (Function.update (fun _ => L / (N : ℚ)) 0 (L / (N : ℚ) / 2))
    (N - 1) (L / (N : ℚ) / 2)

/-- Embedding of `weight = weight_rho * np.vstack(weight_phi)`
(lines 157, 216, 304, 433): entry `(i, j)` is `weight_phi[i] * weight_rho[j]`. -/
def weight2D (Lr : ℚ) (Nr : ℕ) (Lp : ℚ) (Np : ℕ) : ℕ → ℕ → ℚ :=
  fun i j => weight_vector Lp Np i * weight_vector Lr Nr j

/-- C5: the quadrature weight vector for `[0, L]` with `N ≥ 2` samples has
`weight[i] = step` at every interior index `0 < i < N-1`,
`weight[0] = weight[N-1] = step/2` with `step = L/N`, and the 2D weight
field is the outer product of the two per-axis vectors. The interior-index
bounds guard only the interior clause, so the endpoint and outer-product
parts hold for every `N ≥ 2`, including `N = 2`. -/
theorem weight_vector_spec (L Lr Lp : ℚ) (N Nr Np : ℕ) (i j k : ℕ)
    (hN : 2 ≤ N) :
    (0 < i → i < N - 1 → weight_vector L N i = L / (N : ℚ)) ∧
    weight_vector L N 0 = L / (N : ℚ) / 2 ∧
    weight_vector L N (N - 1) = L / (N : ℚ) / 2 ∧
    weight2D Lr Nr Lp Np j k = weight_vector Lp Np j * weight_vector Lr Nr k := by
  refine ⟨?_, ?_, ?_, rfl⟩
  · intro h0 h1
    rw [weight_vector, Function.update_noteq (by omega), Function.update_noteq (by omega)]
  · rw [weight_vector, Function.update_noteq (by omega), Function.update_same]
  · rw [weight_vector, Function.update_same]

/-- Witness for C5 at `L = 1`, `N = 2`: both weights are the half-step
`1/4` and the outer product holds; the interior clause is vacuous since a
2-point grid has no interior index. -/
theorem weight_vector_spec_witness :
    (0 < 1 → 1 < 2 - 1 → weight_vector 1 2 1 = 1 / ((2 : ℕ) : ℚ)) ∧
    weight_vector 1 2 0 = 1 / ((2 : ℕ) : ℚ) / 2 ∧
    weight_vector 1 2 (2 - 1) = 1 / ((2 : ℕ) : ℚ) / 2 ∧
    weight2D 2 3 5 3 0 2 = weight_vector 5 3 0 * weight_vector 2 3 2 :=
  weight_vector_spec 1 2 5 2 3 3 1 0 2 (by norm_num)

/-- C2 counterexample: for `N = 2`, `L = 1` the weight vector sums to `1/2`,
not to the interval length `1`. -/
theorem weight_sum_ne_length :
    ¬ (∑ i ∈ Finset.range 2, weight_vector 1 2 i = (1 : ℚ)) := by
  norm_num [Finset.sum_range_succ, weight_vector, Function.update]

/-- C2 (amended): for `N ≥ 2` the weight vector for `[0, L]` sums to
`L·(N-1)/N` (the step is `L/N` while the grid spans `L` over `N-1` gaps,
so the trapezoid weights undershoot the span by one step). -/
theorem weight_sum_eq (L : ℚ) (N : ℕ) (hN : 2 ≤ N) :
    ∑ i ∈ Finset.range N, weight_vector L N i = L * ((N : ℚ) - 1) / (N : ℚ) := by
  have hmem1 : N - 1 ∈ Finset.range N := Finset.mem_range.mpr (by omega)
  have hmem0 : (0 : ℕ) ∈ Finset.range N \ {N - 1} := by
    simp only [Finset.mem_sdiff, Finset.mem_range, Finset.mem_singleton]
    omega
  rw [show (fun i => weight_vector L N i) = weight_vector L N from rfl]
  rw [weight_vector, Finset.sum_update_of_mem hmem1, Finset.sum_update_of_mem hmem0,
    Finset.sum_const]
  have hcard : ((Finset.range N \ {N - 1}) \ {0}).card = N - 2 := by
    rw [Finset.sdiff_singleton_eq_erase, Finset.sdiff_singleton_eq_erase]
    rw [Finset.card_erase_of_mem (by
      rw [Finset.mem_erase]
      exact ⟨by omega, Finset.mem_range.mpr (by omega)⟩)]
    rw [Finset.card_erase_of_mem (Finset.mem_range.mpr (by omega)), Finset.card_range]
    omega
  rw [hcard]
  have hcast : ((N - 2 : ℕ) : ℚ) = (N : ℚ) - 2 := by
    have : (2 : ℕ) ≤ N := hN
    push_cast [Nat.cast_sub this]
    ring
  rw [nsmul_eq_mul, hcast]
  have hne : (N : ℚ) ≠ 0 := by
    have : (0 : ℚ) < (N : ℚ) := by exact_mod_cast (by omega : 0 < N)
    exact this.ne'
  field_simp
  ring

/-- Witness for C2's amended theorem at `L = 1`, `N = 4`: the sum is `3/4`. -/
theorem weight_sum_eq_witness :
    ∑ i ∈ Finset.range 4, weight_vector 1 4 i = 1 * (((4 : ℕ) : ℚ) - 1) / ((4 : ℕ) : ℚ) :=
  weight_sum_eq 1 4 (by norm_num)

/-- Embedding of `np.linspace(a, b, n)`: entry `i` is `a + (b-a)·i/(n-1)`.
For `n = 1` rational division by zero yields `0`, so the entry is `a`,
matching numpy. -/
def linspace (a b : ℚ) (n : ℕ) : ℕ → ℚ :=
  fun i => a + (b - a) * (i : ℚ) / ((n : ℚ) - 1)

/-- Embedding of the axial-resolution adjustment at lines 390-391:
`if int(resolution_z%2)==0: resolution_z+=1`. -/
def adjusted_resolution_z (n : ℕ) : ℕ := if n % 2 = 0 then n + 1 else n

/-- Embedding of `z_values=np.linspace(z_FOV/2,-z_FOV/2,resolution_z)`
(line 438). -/
def z_values (z_FOV : ℚ) (rz : ℕ) : ℕ → ℚ :=
  linspace (z_FOV / 2) (-z_FOV / 2) rz

/-- C8: the axial sample count is forced to an odd value (an even requested
`resolution_z` is incremented by one), and the middle sample of the
resulting axial grid is exactly `z = 0`. -/
theorem axial_grid_hits_focal_plane (n : ℕ) (zF : ℚ) (hn : 2 ≤ n) :
    Odd (adjusted_resolution_z n) ∧
    (n % 2 = 0 → adjusted_resolution_z n = n + 1) ∧
    z_values zF (adjusted_resolution_z n) ((adjusted_resolution_z n - 1) / 2) = 0 := by
  have h3 : 3 ≤ adjusted_resolution_z n := by
    unfold adjusted_resolution_z
    split <;> omega
  have hodd : Odd (adjusted_resolution_z n) := by
    rw [Nat.odd_iff]
    unfold adjusted_resolution_z
    split <;> omega
  refine ⟨hodd, ?_, ?_⟩
  · intro h
    unfold adjusted_resolution_z
    simp [h]
  · obtain ⟨k, hk⟩ := hodd
    have hk1 : 1 ≤ k := by omega
    have hidx : (adjusted_resolution_z n - 1) / 2 = k := by omega
    rw [hidx, z_values, linspace, hk]
    have hkq : (0 : ℚ) < (k : ℚ) := by exact_mod_cast hk1
    push_cast
    field_simp
    ring

/-- Witness for C8 at `resolution_z = 4`, `z_FOV = 6`. -/
theorem axial_grid_hits_focal_plane_witness :
    Odd (adjusted_resolution_z 4) ∧
    (4 % 2 = 0 → adjusted_resolution_z 4 = 4 + 1) ∧
    z_values 6 (adjusted_resolution_z 4) ((adjusted_resolution_z 4 - 1) / 2) = 0 :=
  axial_grid_hits_focal_plane 4 6 (by norm_num)

/-- Abstract real-valued primitives used by the numerical code. The
transcendental functions and `π` are opaque parameters of the embedding:
no claim depends on their analytic values. -/
structure RealOps where
  rsin : ℚ → ℚ
  rcos : ℚ → ℚ
  rexp : ℚ → ℚ
  rsqrt : ℚ → ℚ
  atan2 : ℚ → ℚ → ℚ
  pi : ℚ

/-- Abstract complex-valued primitives: an ambient field `C`, the complex
exponential, the imaginary unit `1j`, and the real-to-complex injection. -/
structure Ops (C : Type) [Field C] extends RealOps where
  cexp : C → C
  iu : C
  ofReal : ℚ →+* C

/-- Embedding of numpy's `.argmin()`: the first index (scanning up) at which
`g` attains its minimum over `0..n-1`. -/
def np_argmin (g : ℕ → ℚ) (n : ℕ) : ℕ :=
  (List.range n).foldl (fun best k => if g k < g best then k else best) 0

lemma argmin_foldl_spec (g : ℕ → ℚ) (l : List ℕ) (b : ℕ) :
    (l.foldl (fun best k => if g k < g best then k else best) b = b ∨
      l.foldl (fun best k => if g k < g best then k else best) b ∈ l) ∧
    g (l.foldl (fun best k => if g k < g best then k else best) b) ≤ g b ∧
    ∀ k ∈ l, g (l.foldl (fun best k => if g k < g best then k else best) b) ≤ g k := by
  induction l generalizing b with
  | nil => exact ⟨Or.inl rfl, le_refl _, by simp⟩
  | cons a l ih =>
    simp only [List.foldl_cons]
    obtain ⟨ihm, ihb, ihall⟩ := ih (if g a < g b then a else b)
    refine ⟨?_, ?_, ?_⟩
    · rcases ihm with h | h
      · rw [h]
        by_cases hab : g a < g b
        · rw [if_pos hab]
          exact Or.inr (List.mem_cons_self a l)
        · rw [if_neg hab]
          exact Or.inl rfl
      · exact Or.inr (List.mem_cons_of_mem _ h)
    · refine le_trans ihb ?_
      by_cases hab : g a < g b
      · rw [if_pos hab]
        exact le_of_lt hab
      · rw [if_neg hab]
    · intro k hk
      rcases List.mem_cons.mp hk with rfl | hk'
      · refine le_trans ihb ?_
        by_cases hab : g k < g b
        · rw [if_pos hab]
        · rw [if_neg hab]
          exact le_of_not_lt hab
      · exact ihall k hk'

lemma np_argmin_spec (g : ℕ → ℚ) (n : ℕ) (hn : 0 < n) :
    np_argmin g n < n ∧ ∀ k < n, g (np_argmin g n) ≤ g k := by
  obtain ⟨hm, _, hall⟩ := argmin_foldl_spec g (List.range n) 0
  refine ⟨?_, fun k hk => hall k (List.mem_range.mpr hk)⟩
  rcases hm with h | h
  · rw [np_argmin, h]
    exact hn
  · have hmem : np_argmin g n ∈ List.range n := h
    exact List.mem_range.mp hmem

/-- Overwrite a single cell `(r, c)` of a matrix. -/
def writeCell (m : Mat α) (r c : ℕ) (v : α) : Mat α :=
  fun r' c' => if r' = r ∧ c' = c then v else m r' c'

/-- `x_values=np.linspace(-xmax,xmax,2*resolution_theta)` (line 46). -/
def cart_x (xmax : ℚ) (rt : ℕ) : ℕ → ℚ := linspace (-xmax) xmax (2 * rt)

/-- `y_values=np.linspace(xmax,-xmax,2*resolution_theta)` (line 47). -/
def cart_y (xmax : ℚ) (rt : ℕ) : ℕ → ℚ := linspace xmax (-xmax) (2 * rt)

/-- `rhop_values=np.sin(theta_values)*focus` over
`theta_values=np.linspace(0,alpha,resolution_theta)` (lines 53-54). -/
def polar_rhop_values (R : RealOps) (alpha focus : ℚ) (rt : ℕ) : ℕ → ℚ :=
  fun k => R.rsin (linspace 0 alpha rt k) * focus

/-- `phip_values=np.linspace(0,2*np.pi,resolution_phi)` (line 55). -/
def polar_phip_values (R : RealOps) (rp : ℕ) : ℕ → ℚ :=
  linspace 0 (2 * R.pi) rp

/-- `rhop=(x**2+y**2)**0.5` of the Cartesian sample `(i, j)` (line 60). -/
def cart_rhop (R : RealOps) (xmax : ℚ) (rt : ℕ) (i j : ℕ) : ℚ :=
  R.rsqrt ((cart_x xmax rt i) ^ 2 + (cart_y xmax rt j) ^ 2)

/-- `phip=np.arctan2(y,x)`, wrapped into `[0, 2π)` (lines 61-63). -/
def cart_phip (R : RealOps) (xmax : ℚ) (rt : ℕ) (i j : ℕ) : ℚ :=
  let p := R.atan2 (cart_y xmax rt j) (cart_x xmax rt i)
  if p < 0 then p + 2 * R.pi else p

/-- `id_rho = (np.abs(rhop_values - rhop)).argmin()` (line 65). -/
def cart_id_rho (R : RealOps) (xmax alpha focus : ℚ) (rt : ℕ) (i j : ℕ) : ℕ :=
  np_argmin (fun k => |polar_rhop_values R alpha focus rt k - cart_rhop R xmax rt i j|) rt

/-- `id_phi = (np.abs(phip_values - phip)).argmin()` (line 66). -/
def cart_id_phi (R : RealOps) (xmax : ℚ) (rt rp : ℕ) (i j : ℕ) : ℕ :=
  np_argmin (fun k => |polar_phip_values R rp k - cart_phip R xmax rt i j|) rp

/-- Embedding of the resampling loop of `plot_in_cartesian` (lines 58-68):
two zero-initialized `2rt × 2rt` Cartesian matrices; for every `(i, j)`
whose radius is strictly inside `xmax`, cell `(j, i)` receives the polar
sample at the independently nearest angular and radial indices. The
intensity array and the plotting calls are display-only and not part of
the numerical core. -/
def plot_in_cartesian [Zero α] (R : RealOps) (Ex Ey : Mat α) (rp rt : ℕ)
    (xmax alpha focus : ℚ) : Mat α × Mat α :=
  (List.range (2 * rt)).foldl (fun EC i =>
    (List.range (2 * rt)).foldl (fun EC j =>
      if cart_rhop R xmax rt i j < xmax then
        (writeCell EC.1 j i (Ex (cart_id_phi R xmax rt rp i j) (cart_id_rho R xmax alpha focus rt i j)),
         writeCell EC.2 j i (Ey (cart_id_phi R xmax rt rp i j) (cart_id_rho R xmax alpha focus rt i j)))
      else EC) EC)
    (fun _ _ => 0, fun _ _ => 0)

/-- A fold over a pair state whose step acts componentwise splits into two
independent folds. -/
lemma foldl_pair_split (f g : ℕ → Mat α → Mat α)
    (F : Mat α × Mat α → ℕ → Mat α × Mat α)
    (hF : ∀ EC i, F EC i = (f i EC.1, g i EC.2)) (l : List ℕ) (EC : Mat α × Mat α) :
    l.foldl F EC = (l.foldl (fun m i => f i m) EC.1, l.foldl (fun m i => g i m) EC.2) := by
  induction l generalizing EC with
  | nil => rfl
  | cons a l ih =>
    simp only [List.foldl_cons]
    rw [hF, ih]

/-- Cell characterization of a guarded row pass writing cells `(j, i)` for
`j` in the list, with `i` fixed. -/
lemma foldl_writeCell_inner (P : ℕ → ℕ → Prop) [∀ i j, Decidable (P i j)]
    (v : ℕ → ℕ → α) (i : ℕ) (l : List ℕ) (m : Mat α) (r c : ℕ) :
    l.foldl (fun m j => if P i j then writeCell m j i (v i j) else m) m r c
      = if c = i ∧ r ∈ l ∧ P i r then v i r else m r c := by
  induction l generalizing m with
  | nil => simp
  | cons a l ih =>
    simp only [List.foldl_cons]
    rw [ih]
    by_cases h1 : c = i ∧ r ∈ l ∧ P i r
    · rw [if_pos h1, if_pos ⟨h1.1, List.mem_cons_of_mem _ h1.2.1, h1.2.2⟩]
    · rw [if_neg h1]
      by_cases h2 : P i a
      · rw [if_pos h2]
        simp only [writeCell]
        by_cases h3 : r = a ∧ c = i
        · have hmem : r ∈ a :: l := by rw [h3.1]; exact List.mem_cons_self a l
          have hp : P i r := by rw [h3.1]; exact h2
          rw [if_pos h3, if_pos ⟨h3.2, hmem, hp⟩, h3.1]
        · have hneg : ¬(c = i ∧ r ∈ a :: l ∧ P i r) := by
            rintro ⟨hc, hmem, hp⟩
            rcases List.mem_cons.mp hmem with hra | hrl
            · exact h3 ⟨hra, hc⟩
            · exact h1 ⟨hc, hrl, hp⟩
          rw [if_neg h3, if_neg hneg]
      · have hneg : ¬(c = i ∧ r ∈ a :: l ∧ P i r) := by
          rintro ⟨hc, hmem, hp⟩
          rcases List.mem_cons.mp hmem with hra | hrl
          · exact h2 (hra ▸ hp)
          · exact h1 ⟨hc, hrl, hp⟩
        rw [if_neg h2, if_neg hneg]

/-- Cell characterization of the full doubly nested guarded write loop. -/
lemma foldl_writeCell_outer (P : ℕ → ℕ → Prop) [∀ i j, Decidable (P i j)]
    (v : ℕ → ℕ → α) (n : ℕ) (l : List ℕ) (m : Mat α) (r c : ℕ) :
    l.foldl (fun m i =>
        (List.range n).foldl (fun m j => if P i j then writeCell m j i (v i j) else m) m) m r c
      = if c ∈ l ∧ r < n ∧ P c r then v c r else m r c := by
  induction l generalizing m with
  | nil => simp
  | cons a l ih =>
    simp only [List.foldl_cons]
    rw [ih]
    by_cases h1 : c ∈ l ∧ r < n ∧ P c r
    · rw [if_pos h1, if_pos ⟨List.mem_cons_of_mem _ h1.1, h1.2.1, h1.2.2⟩]
    · rw [if_neg h1, foldl_writeCell_inner]
      by_cases h2 : c = a ∧ r ∈ List.range n ∧ P a r
      · obtain ⟨hca, hrn, hp⟩ := h2
        subst hca
        rw [if_pos ⟨rfl, hrn, hp⟩,
          if_pos ⟨List.mem_cons_self c l, List.mem_range.mp hrn, hp⟩]
      · have hneg : ¬(c ∈ a :: l ∧ r < n ∧ P c r) := by
          rintro ⟨hmem, hrn, hp⟩
          rcases List.mem_cons.mp hmem with hca | hcl
          · exact h2 ⟨hca, List.mem_range.mpr hrn, hca ▸ hp⟩
          · exact h1 ⟨hcl, hrn, hp⟩
        rw [if_neg h2, if_neg hneg]

lemma plot_in_cartesian_eq [Zero α] (R : RealOps) (Ex Ey : Mat α) (rp rt : ℕ)
    (xmax alpha focus : ℚ) :
    plot_in_cartesian R Ex Ey rp rt xmax alpha focus
      = ((List.range (2 * rt)).foldl (fun m i => (List.range (2 * rt)).foldl
            (fun m j => if cart_rhop R xmax rt i j < xmax then
                writeCell m j i (Ex (cart_id_phi R xmax rt rp i j) (cart_id_rho R xmax alpha focus rt i j))
              else m) m) (fun _ _ => 0),
         (List.range (2 * rt)).foldl (fun m i => (List.range (2 * rt)).foldl
            (fun m j => if cart_rhop R xmax rt i j < xmax then
                writeCell m j i (Ey (cart_id_phi R xmax rt rp i j) (cart_id_rho R xmax alpha focus rt i j))
              else m) m) (fun _ _ => 0)) := by
  rw [plot_in_cartesian]
  refine foldl_pair_split _ _ _ ?_ _ _
  intro EC i
  refine foldl_pair_split _ _ _ ?_ _ _
  intro EC j
  by_cases h : cart_rhop R xmax rt i j < xmax <;> simp [h]

lemma plot_in_cartesian_get [Zero α] (R : RealOps) (Ex Ey : Mat α) (rp rt : ℕ)
    (xmax alpha focus : ℚ) (r c : ℕ) :
    ((plot_in_cartesian R Ex Ey rp rt xmax alpha focus).1 r c
      = if c < 2 * rt ∧ r < 2 * rt ∧ cart_rhop R xmax rt c r < xmax
        then Ex (cart_id_phi R xmax rt rp c r) (cart_id_rho R xmax alpha focus rt c r) else 0) ∧
    ((plot_in_cartesian R Ex Ey rp rt xmax alpha focus).2 r c
      = if c < 2 * rt ∧ r < 2 * rt ∧ cart_rhop R xmax rt c r < xmax
        then Ey (cart_id_phi R xmax rt rp c r) (cart_id_rho R xmax alpha focus rt c r) else 0) := by
  rw [plot_in_cartesian_eq]
  dsimp only
  constructor
  · rw [foldl_writeCell_outer (fun i j => cart_rhop R xmax rt i j < xmax)
      (fun i j => Ex (cart_id_phi R xmax rt rp i j) (cart_id_rho R xmax alpha focus rt i j))]
    simp only [List.mem_range]
  · rw [foldl_writeCell_outer (fun i j => cart_rhop R xmax rt i j < xmax)
      (fun i j => Ey (cart_id_phi R xmax rt rp i j) (cart_id_rho R xmax alpha focus rt i j))]
    simp only [List.mem_range]

/-- C6: for every in-range Cartesian sample `(i, j)` of the resampler's
target grid, if its radius is strictly below `xmax` the output cell holds
the polar input sample whose angular and radial indices are each an
independent argmin of the absolute coordinate difference (and those argmin
indices are in range and minimal); a cell whose radius is not within `xmax`
is exactly zero. -/
theorem resampler_nearest_or_zero [Zero α] (R : RealOps) (Ex Ey : Mat α)
    (rp rt : ℕ) (xmax alpha focus : ℚ) (i j : ℕ)
    (hi : i < 2 * rt) (hj : j < 2 * rt) (hrt : 0 < rt) (hrp : 0 < rp) :
    (cart_rhop R xmax rt i j < xmax →
       (plot_in_cartesian R Ex Ey rp rt xmax alpha focus).1 j i
           = Ex (cart_id_phi R xmax rt rp i j) (cart_id_rho R xmax alpha focus rt i j) ∧
       (plot_in_cartesian R Ex Ey rp rt xmax alpha focus).2 j i
           = Ey (cart_id_phi R xmax rt rp i j) (cart_id_rho R xmax alpha focus rt i j) ∧
       cart_id_rho R xmax alpha focus rt i j < rt ∧
       (∀ k < rt,
         |polar_rhop_values R alpha focus rt (cart_id_rho R xmax alpha focus rt i j)
             - cart_rhop R xmax rt i j|
           ≤ |polar_rhop_values R alpha focus rt k - cart_rhop R xmax rt i j|) ∧
       cart_id_phi R xmax rt rp i j < rp ∧
       (∀ k < rp,
         |polar_phip_values R rp (cart_id_phi R xmax rt rp i j)
             - cart_phip R xmax rt i j|
           ≤ |polar_phip_values R rp k - cart_phip R xmax rt i j|)) ∧
    (¬ cart_rhop R xmax rt i j < xmax →
       (plot_in_cartesian R Ex Ey rp rt xmax alpha focus).1 j i = 0 ∧
       (plot_in_cartesian R Ex Ey rp rt xmax alpha focus).2 j i = 0) := by
  obtain ⟨h1, h2⟩ := plot_in_cartesian_get R Ex Ey rp rt xmax alpha focus j i
  constructor
  · intro h
    obtain ⟨hrho_lt, hrho_min⟩ :=
      np_argmin_spec (fun k => |polar_rhop_values R alpha focus rt k - cart_rhop R xmax rt i j|) rt hrt
    obtain ⟨hphi_lt, hphi_min⟩ :=
      np_argmin_spec (fun k => |polar_phip_values R rp k - cart_phip R xmax rt i j|) rp hrp
    rw [h1, if_pos ⟨hi, hj, h⟩, h2, if_pos ⟨hi, hj, h⟩]
    exact ⟨rfl, rfl, hrho_lt, hrho_min, hphi_lt, hphi_min⟩
  · intro h
    rw [h1, h2, if_neg (fun hc => h hc.2.2), if_neg (fun hc => h hc.2.2)]
    exact ⟨rfl, rfl⟩

/-- Concrete real primitives for evaluating the embedding on sample data. -/
def probeRealOps : RealOps :=
  { rsin := fun x => x, rcos := fun x => x, rexp := fun x => x,
    rsqrt := fun _ => 0, atan2 := fun y x => y + x, pi := 3 }

/-- Witness for C6: on a concrete 2×2 resampling with radius inside the
bound, the output cell is the argmin-selected input sample. -/
theorem resampler_nearest_or_zero_witness :
    (plot_in_cartesian probeRealOps rowTag rowTag 1 1 1 2 3).1 0 0
      = rowTag (cart_id_phi probeRealOps 1 1 1 0 0) (cart_id_rho probeRealOps 1 2 3 1 0 0) :=
  ((resampler_nearest_or_zero probeRealOps rowTag rowTag 1 1 1 2 3 0 0
      (by decide) (by decide) (by decide) (by decide)).1 (by decide)).1

/-- The XY-plane integration loop of `custom_mask_focus_field` in countdown
mode (lines 344-357): for output cell `(j, i)` build the two phase kernels
from the point's polar coordinates and sum the six precomputed coupling
arrays against them. Phase arguments, real in the source, are collected
under one `ofReal`. -/
def focus_xy_loop_countdown [Field C] (O : Ops C) (Axx Axy Axz Ayx Ayy Ayz : Mat C)
    (x_values y_values sin_theta cos_theta_kz phi_values : ℕ → ℚ)
    (Lam : ℚ) (rt rp : ℕ) : Mat C × Mat C × Mat C :=
  ((fun j i =>
      let x := x_values i
      let y := y_values j
      let rhop := O.rsqrt (x ^ 2 + y ^ 2)
      let phip := O.atan2 y x
      let kr := rhop * 2 * O.pi / Lam
      (∑ ip ∈ Finset.range rp, ∑ jp ∈ Finset.range rt,
          Axx ip jp * O.cexp (O.iu * O.ofReal (sin_theta jp * kr * O.rcos (phi_values ip - phip) + cos_theta_kz jp)))
        + ∑ ip ∈ Finset.range rp, ∑ jp ∈ Finset.range rt,
            Ayx ip jp * O.cexp (O.iu * O.ofReal (-(sin_theta jp * kr) * O.rsin (phi_values ip - phip) + cos_theta_kz jp))),
   (fun j i =>
      let x := x_values i
      let y := y_values j
      let rhop := O.rsqrt (x ^ 2 + y ^ 2)
      let phip := O.atan2 y x
      let kr := rhop * 2 * O.pi / Lam
      (∑ ip ∈ Finset.range rp, ∑ jp ∈ Finset.range rt,
          Axy ip jp * O.cexp (O.iu * O.ofReal (sin_theta jp * kr * O.rcos (phi_values ip - phip) + cos_theta_kz jp)))
        + ∑ ip ∈ Finset.range rp, ∑ jp ∈ Finset.range rt,
            Ayy ip jp * O.cexp (O.iu * O.ofReal (-(sin_theta jp * kr) * O.rsin (phi_values ip - phip) + cos_theta_kz jp))),
   fun j i =>
      let x := x_values i
      let y := y_values j
      let rhop := O.rsqrt (x ^ 2 + y ^ 2)
      let phip := O.atan2 y x
      let kr := rhop * 2 * O.pi / Lam
      (∑ ip ∈ Finset.range rp, ∑ jp ∈ Finset.range rt,
          Axz ip jp * O.cexp (O.iu * O.ofReal (sin_theta jp * kr * O.rcos (phi_values ip - phip) + cos_theta_kz jp)))
        + ∑ ip ∈ Finset.range rp, ∑ jp ∈ Finset.range rt,
            Ayz ip jp * O.cexp (O.iu * O.ofReal (-(sin_theta jp * kr) * O.rsin (phi_values ip - phip) + cos_theta_kz jp)))

/-- The XY-plane integration loop of `custom_mask_focus_field` with
countdown disabled (lines 358-370); the loop body is transcribed
separately from the countdown branch, exactly as in the source. -/
def focus_xy_loop_plain [Field C] (O : Ops C) (Axx Axy Axz Ayx Ayy Ayz : Mat C)
    (x_values y_values sin_theta cos_theta_kz phi_values : ℕ → ℚ)
    (Lam : ℚ) (rt rp : ℕ) : Mat C × Mat C × Mat C :=
  ((fun j i =>
      let x := x_values i
      let y := y_values j
      let rhop := O.rsqrt (x ^ 2 + y ^ 2)
      let phip := O.atan2 y x
      let kr := rhop * 2 * O.pi / Lam
      (∑ ip ∈ Finset.range rp, ∑ jp ∈ Finset.range rt,
          Axx ip jp * O.cexp (O.iu * O.ofReal (sin_theta jp * kr * O.rcos (phi_values ip - phip) + cos_theta_kz jp)))
        + ∑ ip ∈ Finset.range rp, ∑ jp ∈ Finset.range rt,
            Ayx ip jp * O.cexp (O.iu * O.ofReal (-(sin_theta jp * kr) * O.rsin (phi_values ip - phip) + cos_theta_kz jp))),
   (fun j i =>
      let x := x_values i
      let y := y_values j
      let rhop := O.rsqrt (x ^ 2 + y ^ 2)
      let phip := O.atan2 y x
      let kr := rhop * 2 * O.pi / Lam
      (∑ ip ∈ Finset.range rp, ∑ jp ∈ Finset.range rt,
          Axy ip jp * O.cexp (O.iu * O.ofReal (sin_theta jp * kr * O.rcos (phi_values ip - phip) + cos_theta_kz jp)))
        + ∑ ip ∈ Finset.range rp, ∑ jp ∈ Finset.range rt,
            Ayy ip jp * O.cexp (O.iu * O.ofReal (-(sin_theta jp * kr) * O.rsin (phi_values ip - phip) + cos_theta_kz jp))),
   fun j i =>
      let x := x_values i
      let y := y_values j
      let rhop := O.rsqrt (x ^ 2 + y ^ 2)
      let phip := O.atan2 y x
      let kr := rhop * 2 * O.pi / Lam
      (∑ ip ∈ Finset.range rp, ∑ jp ∈ Finset.range rt,
          Axz ip jp * O.cexp (O.iu * O.ofReal (sin_theta jp * kr * O.rcos (phi_values ip - phip) + cos_theta_kz jp)))
        + ∑ ip ∈ Finset.range rp, ∑ jp ∈ Finset.range rt,
            Ayz ip jp * O.cexp (O.iu * O.ofReal (-(sin_theta jp * kr) * O.rsin (phi_values ip - phip) + cos_theta_kz jp)))

/-- Embedding of `custom_mask_focus_field` (lines 253-376): unit scalings,
row rotations of the incident components, trapezoid weights, precomputed
trigonometric coupling arrays, the countdown-selected XY integration loop,
and the final `±i·focus/λ` scaling. -/
def custom_mask_focus_field [Field C] (O : Ops C) (ex_lens ey_lens : Mat C)
    (alpha h Lam zp0 : ℚ) (resolution_focus resolution_theta resolution_phi : ℕ)
    (FOV_focus : ℚ) (countdown : Bool) (x0 y0 : ℚ) : Mat C × Mat C × Mat C :=
  let Lam2 := Lam * 10 ^ 6
  let focus := h / O.rsin alpha * 10 ^ 6
  let exL := rotate_180 resolution_phi ex_lens
  let eyL := rotate_270 resolution_phi ey_lens
  let weight_trapezoid : ℕ → ℕ → ℚ := fun ip jp =>
    weight_vector (2 * O.pi) resolution_phi ip * weight_vector alpha resolution_theta jp
  let xmax := FOV_focus / 2
  let x_values := linspace (-xmax + x0) (xmax + x0) resolution_focus
  let y_values := linspace (xmax + y0) (-xmax + y0) resolution_focus
  let theta_values := linspace 0 alpha resolution_theta
  let phi_values := linspace 0 (2 * O.pi) resolution_phi
  let kz := zp0 * 2 * O.pi / Lam2
  let cos_theta := fun jp => O.rcos (theta_values jp)
  let cos_theta_sqrt := fun jp => O.rsqrt (cos_theta jp)
  let sin_theta := fun jp => O.rsin (theta_values jp)
  let cos_phi := fun ip => O.rcos (phi_values ip)
  let sin_phi := fun ip => O.rsin (phi_values ip)
  let sin_phi_square := fun ip => sin_phi ip ^ 2
  let prefactor_general := fun (_ : ℕ) jp => cos_theta_sqrt jp * sin_theta jp
  let prefactor_x := fun ip jp =>
    prefactor_general ip jp * (cos_theta jp + (1 - cos_theta jp) * sin_phi_square ip)
  let prefactor_y := fun ip jp => prefactor_general ip jp * (1 - cos_theta jp) * cos_phi ip * sin_phi ip
  let prefactor_z := fun ip jp => prefactor_general ip jp * sin_theta jp * cos_phi ip
  let Axx := fun ip jp => O.ofReal (prefactor_x ip jp) * exL ip jp * O.ofReal (weight_trapezoid ip jp)
  let Axy := fun ip jp => O.ofReal (prefactor_y ip jp) * exL ip jp * O.ofReal (weight_trapezoid ip jp)
  let Axz := fun ip jp => O.ofReal (prefactor_z ip jp) * exL ip jp * O.ofReal (weight_trapezoid ip jp)
  let Ayx := fun ip jp => O.ofReal (prefactor_y ip jp) * eyL ip jp * O.ofReal (weight_trapezoid ip jp)
  let Ayy := fun ip jp => -O.ofReal (prefactor_x ip jp) * eyL ip jp * O.ofReal (weight_trapezoid ip jp)
  let Ayz := fun ip jp => O.ofReal (prefactor_z ip jp) * eyL ip jp * O.ofReal (weight_trapezoid ip jp)
  let cos_theta_kz := fun jp => cos_theta jp * kz
  let loops :=
    if countdown then
      focus_xy_loop_countdown O Axx Axy Axz Ayx Ayy Ayz x_values y_values sin_theta
        cos_theta_kz phi_values Lam2 resolution_theta resolution_phi
    else
      focus_xy_loop_plain O Axx Axy Axz Ayx Ayy Ayz x_values y_values sin_theta
        cos_theta_kz phi_values Lam2 resolution_theta resolution_phi
  ((fun j i => loops.1 j i * (-O.iu * O.ofReal focus / O.ofReal Lam2)),
   (fun j i => loops.2.1 j i * (O.iu * O.ofReal focus / O.ofReal Lam2)),
   (fun j i => loops.2.2 j i * (O.iu * O.ofReal focus / O.ofReal Lam2)))

/-- C4: the focal-plane synthesizer returns identical (Ex, Ey, Ez) with the
countdown/progress mode enabled or disabled: the two loop branches of the
source are numerically the same computation. -/
theorem countdown_mode_no_numeric_effect [Field C] (O : Ops C)
    (ex_lens ey_lens : Mat C) (alpha h Lam zp0 : ℚ)
    (resolution_focus resolution_theta resolution_phi : ℕ)
    (FOV_focus x0 y0 : ℚ) :
    custom_mask_focus_field O ex_lens ey_lens alpha h Lam zp0 resolution_focus
        resolution_theta resolution_phi FOV_focus true x0 y0
      = custom_mask_focus_field O ex_lens ey_lens alpha h Lam zp0 resolution_focus
          resolution_theta resolution_phi FOV_focus false x0 y0 := rfl

/-- The XZ-plane integration loop (`plot_plane=='X'`, lines 470-485): each
output point lies on the X axis (`rhop=|x|`, `phip=arctan2(0,x)`) at axial
offset `z_values[j]`. -/
def axial_loop_X [Field C] (O : Ops C) (Axx Axy Axz Ayx Ayy Ayz : Mat C)
    (x_values z_vals sin_theta cos_theta phi_values : ℕ → ℚ)
    (Lam : ℚ) (rt rp : ℕ) : Mat C × Mat C × Mat C :=
  ((fun j i =>
      let zp0 := z_vals j
      let x := x_values i
      let rhop := |x|
      let phip := O.atan2 0 x
      let kr := rhop * 2 * O.pi / Lam
      let kz := zp0 * 2 * O.pi / Lam
      (∑ ip ∈ Finset.range rp, ∑ jp ∈ Finset.range rt,
          Axx ip jp * O.cexp (O.iu * O.ofReal (sin_theta jp * kr * O.rcos (phi_values ip - phip) + cos_theta jp * kz)))
        + ∑ ip ∈ Finset.range rp, ∑ jp ∈ Finset.range rt,
            Ayx ip jp * O.cexp (O.iu * O.ofReal (-(sin_theta jp * kr) * O.rsin (phi_values ip - phip) + cos_theta jp * kz))),
   (fun j i =>
      let zp0 := z_vals j
      let x := x_values i
      let rhop := |x|
      let phip := O.atan2 0 x
      let kr := rhop * 2 * O.pi / Lam
      let kz := zp0 * 2 * O.pi / Lam
      (∑ ip ∈ Finset.range rp, ∑ jp ∈ Finset.range rt,
          Axy ip jp * O.cexp (O.iu * O.ofReal (sin_theta jp * kr * O.rcos (phi_values ip - phip) + cos_theta jp * kz)))
        + ∑ ip ∈ Finset.range rp, ∑ jp ∈ Finset.range rt,
            Ayy ip jp * O.cexp (O.iu * O.ofReal (-(sin_theta jp * kr) * O.rsin (phi_values ip - phip) + cos_theta jp * kz))),
   fun j i =>
      let zp0 := z_vals j
      let x := x_values i
      let rhop := |x|
      let phip := O.atan2 0 x
      let kr := rhop * 2 * O.pi / Lam
      let kz := zp0 * 2 * O.pi / Lam
      (∑ ip ∈ Finset.range rp, ∑ jp ∈ Finset.range rt,
          Axz ip jp * O.cexp (O.iu * O.ofReal (sin_theta jp * kr * O.rcos (phi_values ip - phip) + cos_theta jp * kz)))
        + ∑ ip ∈ Finset.range rp, ∑ jp ∈ Finset.range rt,
            Ayz ip jp * O.cexp (O.iu * O.ofReal (-(sin_theta jp * kr) * O.rsin (phi_values ip - phip) + cos_theta jp * kz)))

/-- The YZ-plane integration loop (`plot_plane=='Y'`, lines 487-502): each
output point lies on the Y axis (`rhop=|y|`, `phip=arctan2(y,0)`). -/
def axial_loop_Y [Field C] (O : Ops C) (Axx Axy Axz Ayx Ayy Ayz : Mat C)
    (x_values z_vals sin_theta cos_theta phi_values : ℕ → ℚ)
    (Lam : ℚ) (rt rp : ℕ) : Mat C × Mat C × Mat C :=
  ((fun j i =>
      let zp0 := z_vals j
      let y := x_values i
      let rhop := |y|
      let phip := O.atan2 y 0
      let kr := rhop * 2 * O.pi / Lam
      let kz := zp0 * 2 * O.pi / Lam
      (∑ ip ∈ Finset.range rp, ∑ jp ∈ Finset.range rt,
          Axx ip jp * O.cexp (O.iu * O.ofReal (sin_theta jp * kr * O.rcos (phi_values ip - phip) + cos_theta jp * kz)))
        + ∑ ip ∈ Finset.range rp, ∑ jp ∈ Finset.range rt,
            Ayx ip jp * O.cexp (O.iu * O.ofReal (-(sin_theta jp * kr) * O.rsin (phi_values ip - phip) + cos_theta jp * kz))),
   (fun j i =>
      let zp0 := z_vals j
      let y := x_values i
      let rhop := |y|
      let phip := O.atan2 y 0
      let kr := rhop * 2 * O.pi / Lam
      let kz := zp0 * 2 * O.pi / Lam
      (∑ ip ∈ Finset.range rp, ∑ jp ∈ Finset.range rt,
          Axy ip jp * O.cexp (O.iu * O.ofReal (sin_theta jp * kr * O.rcos (phi_values ip - phip) + cos_theta jp * kz)))
        + ∑ ip ∈ Finset.range rp, ∑ jp ∈ Finset.range rt,
            Ayy ip jp * O.cexp (O.iu * O.ofReal (-(sin_theta jp * kr) * O.rsin (phi_values ip - phip) + cos_theta jp * kz))),
   fun j i =>
      let zp0 := z_vals j
      let y := x_values i
      let rhop := |y|
      let phip := O.atan2 y 0
      let kr := rhop * 2 * O.pi / Lam
      let kz := zp0 * 2 * O.pi / Lam
      (∑ ip ∈ Finset.range rp, ∑ jp ∈ Finset.range rt,
          Axz ip jp * O.cexp (O.iu * O.ofReal (sin_theta jp * kr * O.rcos (phi_values ip - phip) + cos_theta jp * kz)))
        + ∑ ip ∈ Finset.range rp, ∑ jp ∈ Finset.range rt,
            Ayz ip jp * O.cexp (O.iu * O.ofReal (-(sin_theta jp * kr) * O.rsin (phi_values ip - phip) + cos_theta jp * kz)))

/-- Embedding of `custom_mask_focus_field_XZ_XY` (lines 378-509): compute
the XY plane via `custom_mask_focus_field`, force the axial count odd,
rebuild rotations/weights/couplings, select the axial loop by the
`plot_plane` string — any unrecognized selector only prints a message, so
the preallocated zero matrices are returned — and apply the final
`±i·focus/λ` scaling. -/
def custom_mask_focus_field_XZ_XY [Field C] (O : Ops C) (ex_lens ey_lens : Mat C)
    (alpha h Lam z_FOV : ℚ) (resolution_z : ℕ) (zp0 : ℚ)
    (resolution_focus resolution_theta resolution_phi : ℕ)
    (FOV_focus x0 y0 : ℚ) (plot_plane : String) :
    (Mat C × Mat C × Mat C) × (Mat C × Mat C × Mat C) :=
  let XY := custom_mask_focus_field O ex_lens ey_lens alpha h Lam zp0 resolution_focus
    resolution_theta resolution_phi FOV_focus true x0 y0
  let rz := adjusted_resolution_z resolution_z
  let Lam2 := Lam * 10 ^ 6
  let focus := h / O.rsin alpha * 10 ^ 6
  let exL := rotate_180 resolution_phi ex_lens
  let eyL := rotate_270 resolution_phi ey_lens
  let weight_trapezoid : ℕ → ℕ → ℚ := fun ip jp =>
    weight_vector (2 * O.pi) resolution_phi ip * weight_vector alpha resolution_theta jp
  let xmax := FOV_focus * O.rsqrt 2 / 2
  let x_values := linspace (-xmax + x0) (xmax + x0) resolution_focus
  let z_vals := z_values z_FOV rz
  let theta_values := linspace 0 alpha resolution_theta
  let phi_values := linspace 0 (2 * O.pi) resolution_phi
  let cos_theta := fun jp => O.rcos (theta_values jp)
  let cos_theta_sqrt := fun jp => O.rsqrt (cos_theta jp)
  let sin_theta := fun jp => O.rsin (theta_values jp)
  let cos_phi := fun ip => O.rcos (phi_values ip)
  let sin_phi := fun ip => O.rsin (phi_values ip)
  let sin_phi_square := fun ip => sin_phi ip ^ 2
  let prefactor_general := fun (_ : ℕ) jp => cos_theta_sqrt jp * sin_theta jp
  let prefactor_x := fun ip jp =>
    prefactor_general ip jp * (cos_theta jp + (1 - cos_theta jp) * sin_phi_square ip)
  let prefactor_y := fun ip jp => prefactor_general ip jp * (1 - cos_theta jp) * cos_phi ip * sin_phi ip
  let prefactor_z := fun ip jp => prefactor_general ip jp * sin_theta jp * cos_phi ip
  let Axx := fun ip jp => O.ofReal (prefactor_x ip jp) * exL ip jp * O.ofReal (weight_trapezoid ip jp)
  let Axy := fun ip jp => O.ofReal (prefactor_y ip jp) * exL ip jp * O.ofReal (weight_trapezoid ip jp)
  let Axz := fun ip jp => O.ofReal (prefactor_z ip jp) * exL ip jp * O.ofReal (weight_trapezoid ip jp)
  let Ayx := fun ip jp => O.ofReal (prefactor_y ip jp) * eyL ip jp * O.ofReal (weight_trapezoid ip jp)
  let Ayy := fun ip jp => -O.ofReal (prefactor_x ip jp) * eyL ip jp * O.ofReal (weight_trapezoid ip jp)
  let Ayz := fun ip jp => O.ofReal (prefactor_z ip jp) * eyL ip jp * O.ofReal (weight_trapezoid ip jp)
  let raw :=
    if plot_plane = "X" then
      axial_loop_X O Axx Axy Axz Ayx Ayy Ayz x_values z_vals sin_theta cos_theta
        phi_values Lam2 resolution_theta resolution_phi
    else if plot_plane = "Y" then
      axial_loop_Y O Axx Axy Axz Ayx Ayy Ayz x_values z_vals sin_theta cos_theta
        phi_values Lam2 resolution_theta resolution_phi
    else
      ((fun _ _ => 0), (fun _ _ => 0), (fun _ _ => 0))
  (((fun j i => raw.1 j i * (-O.iu * O.ofReal focus / O.ofReal Lam2)),
    (fun j i => raw.2.1 j i * (O.iu * O.ofReal focus / O.ofReal Lam2)),
    (fun j i => raw.2.2 j i * (O.iu * O.ofReal focus / O.ofReal Lam2))), XY)

/-- C3: with an axial-plane selector other than "X" and "Y" the synthesizer
does not fail: it returns with the axial-plane field identically zero (the
source merely prints the available options), confirming the spec's
diagnosis of a silent no-op where a configuration error is intended. -/
theorem invalid_plane_returns_zero_axial_field [Field C] (O : Ops C)
    (ex_lens ey_lens : Mat C) (alpha h Lam z_FOV : ℚ) (resolution_z : ℕ)
    (zp0 : ℚ) (resolution_focus resolution_theta resolution_phi : ℕ)
    (FOV_focus x0 y0 : ℚ) (plot_plane : String)
    (hX : plot_plane ≠ "X") (hY : plot_plane ≠ "Y") (j i : ℕ) :
    (custom_mask_focus_field_XZ_XY O ex_lens ey_lens alpha h Lam z_FOV resolution_z
        zp0 resolution_focus resolution_theta resolution_phi FOV_focus x0 y0
        plot_plane).1.1 j i = 0 ∧
    (custom_mask_focus_field_XZ_XY O ex_lens ey_lens alpha h Lam z_FOV resolution_z
        zp0 resolution_focus resolution_theta resolution_phi FOV_focus x0 y0
        plot_plane).1.2.1 j i = 0 ∧
    (custom_mask_focus_field_XZ_XY O ex_lens ey_lens alpha h Lam z_FOV resolution_z
        zp0 resolution_focus resolution_theta resolution_phi FOV_focus x0 y0
        plot_plane).1.2.2 j i = 0 := by
  simp [custom_mask_focus_field_XZ_XY, hX, hY]

/-- Concrete complex-side primitives over `ℚ` for evaluating the embedding. -/
def probeOps : Ops ℚ :=
  { probeRealOps with cexp := fun z => z, iu := 0, ofReal := RingHom.id ℚ }

/-- Witness for C3 at selector "Z" on concrete small inputs. -/
theorem invalid_plane_returns_zero_axial_field_witness :
    (custom_mask_focus_field_XZ_XY probeOps rowTag rowTag 1 1 1 1 2 1 1 1 1 1 0 0
        "Z").1.1 0 0 = 0 ∧
    (custom_mask_focus_field_XZ_XY probeOps rowTag rowTag 1 1 1 1 2 1 1 1 1 1 0 0
        "Z").1.2.1 0 0 = 0 ∧
    (custom_mask_focus_field_XZ_XY probeOps rowTag rowTag 1 1 1 1 2 1 1 1 1 1 0 0
        "Z").1.2.2 0 0 = 0 :=
  invalid_plane_returns_zero_axial_field probeOps rowTag rowTag 1 1 1 1 2 1 1 1 1 1 0 0
    "Z" (by decide) (by decide) 0 0

/-- Embedding of `generate_incident_field` (lines 17-39): Gaussian
apodization times the mask value on the polar lens grid, then the
polarization split `cos ψ` / `sin ψ·e^{iδ}` and `√I0` scaling. -/
def generate_incident_field [Field C] (O : Ops C)
    (maskfunction : ℚ → ℚ → ℚ → ℚ → ℚ → C) (alpha focus : ℚ)
    (resolution_phi resolution_theta : ℕ)
    (h psi delta radius I0 wavelength : ℚ) : Mat C × Mat C :=
  let k := 2 * O.pi / wavelength
  let gaussian := fun rho => O.rexp (-(rho / radius) ^ 2)
  let theta_values := linspace 0 alpha resolution_theta
  let rhop_values := fun jp => O.rsin (theta_values jp) * focus
  let phip_values := linspace 0 (2 * O.pi) resolution_phi
  let ex_lens : Mat C := fun ip jp =>
    O.ofReal (gaussian (rhop_values jp))
      * maskfunction (rhop_values jp) (phip_values ip) radius focus k
  let ey_lens : Mat C := fun ip jp =>
    O.ofReal (gaussian (rhop_values jp))
      * maskfunction (rhop_values jp) (phip_values ip) radius focus k
  ((fun ip jp => ex_lens ip jp * O.ofReal (O.rcos (psi * O.pi / 180) * O.rsqrt I0)),
   (fun ip jp => ey_lens ip jp *
     (O.ofReal (O.rsin (psi * O.pi / 180))
       * O.cexp (O.iu * O.ofReal delta * O.ofReal O.pi / 180) * O.ofReal (O.rsqrt I0))))

/-- The pupil integration loop of `custom_mask_objective_field`
(lines 143-180): grids, trapezoid weights, the precomputed prefactor of
line 174, and the double sum of line 180 producing the unnormalized `Ex`. -/
def objective_field_loop [Field C] (O : Ops C)
    (resolution_theta resolution_phi N_rho N_phi : ℕ) (alpha : ℚ)
    (mask_function : ℚ → ℚ → ℚ → ℚ → ℚ → C) (h L Lambda radius : ℚ) : Mat C :=
  let focus := h / O.rsin alpha
  let rho_values := linspace 0 h N_rho
  let phi_values := linspace 0 (2 * O.pi) N_phi
  let weight : ℕ → ℕ → ℚ := fun ip jp =>
    weight_vector (2 * O.pi) N_phi ip * weight_vector h N_rho jp
  let theta_values := linspace 0 alpha resolution_theta
  let rhop_values := fun i => O.rsin (theta_values i) * focus
  let phip_values := linspace 0 (2 * O.pi) resolution_phi
  let kl := O.pi / Lambda / L
  let k := 2 * O.pi / Lambda
  let prefactor : Mat C := fun ip jp =>
    O.ofReal (rho_values jp)
      * O.cexp (O.ofReal (-(rho_values jp / radius) ^ 2)
          + O.iu * O.ofReal (k * L + kl * rho_values jp ^ 2))
      * mask_function (rho_values jp) (phi_values ip) radius focus k
      * O.ofReal (weight ip jp)
  fun j i =>
    ∑ ip ∈ Finset.range N_phi, ∑ jp ∈ Finset.range N_rho,
      prefactor ip jp
        * (O.cexp (O.iu * O.ofReal (k * rhop_values i ^ 2 / 2 / L))
           * O.cexp (-O.iu * O.ofReal (kl * (2 * rho_values jp * rhop_values i
               * O.rcos (phi_values ip - phip_values j)))))

/-- Embedding of `custom_mask_objective_field` (lines 132-191): the
Fresnel-type double integral over the pupil grid with precomputed
prefactor, the `-i/(λL)` normalization, the `Ey = Ex·e^{iδ}` relation, the
polarization split, and the Cartesian resampling of the result. Phase
factors with real arguments are collected under one `ofReal`. -/
def custom_mask_objective_field [Field C] (O : Ops C) (psi delta : ℚ)
    (resolution_theta resolution_phi N_rho N_phi : ℕ) (alpha : ℚ)
    (mask_function : ℚ → ℚ → ℚ → ℚ → ℚ → C) (h L I0 Lambda radius : ℚ) :
    Mat C × Mat C × (Mat C × Mat C) :=
  let focus := h / O.rsin alpha
  let Ex0 : Mat C := objective_field_loop O resolution_theta resolution_phi N_rho N_phi
    alpha mask_function h L Lambda radius
  let Ex1 : Mat C := fun j i => Ex0 j i * (-O.iu / O.ofReal Lambda / O.ofReal L)
  let Ey1 : Mat C := fun j i => Ex1 j i * O.cexp (O.iu * O.ofReal O.pi / 180 * O.ofReal delta)
  let Ex2 : Mat C := fun j i => Ex1 j i * O.ofReal (O.rcos (O.pi / 180 * psi) * O.rsqrt I0)
  let Ey2 : Mat C := fun j i => Ey1 j i * O.ofReal (O.rsin (O.pi / 180 * psi) * O.rsqrt I0)
  (Ex2, Ey2, plot_in_cartesian O.toRealOps Ex2 Ey2 resolution_phi resolution_theta h alpha focus)

/-- C10: in both lens-plane synthesizers the two returned polarization
arrays are elementwise proportional:
`Ex[i,j]·sin(ψπ/180)·e^{iδπ/180} = Ey[i,j]·cos(ψπ/180)` at every grid
point, since both components share one scalar base field and differ only
by the polarization-split scalars. -/
theorem polarization_components_proportional [Field C] (O : Ops C)
    (mask : ℚ → ℚ → ℚ → ℚ → ℚ → C) (alpha focus : ℚ) (rp rt : ℕ)
    (h psi delta radius I0 wavelength : ℚ)
    (rth rph N_rho N_phi : ℕ) (alpha2 h2 L I02 Lambda radius2 : ℚ) (i j : ℕ) :
    ((generate_incident_field O mask alpha focus rp rt h psi delta radius I0 wavelength).1 i j
        * O.ofReal (O.rsin (psi * O.pi / 180)) * O.cexp (O.iu * O.ofReal (delta * O.pi / 180))
      = (generate_incident_field O mask alpha focus rp rt h psi delta radius I0 wavelength).2 i j
          * O.ofReal (O.rcos (psi * O.pi / 180))) ∧
    ((custom_mask_objective_field O psi delta rth rph N_rho N_phi alpha2 mask h2 L I02 Lambda radius2).1 i j
        * O.ofReal (O.rsin (psi * O.pi / 180)) * O.cexp (O.iu * O.ofReal (delta * O.pi / 180))
      = (custom_mask_objective_field O psi delta rth rph N_rho N_phi alpha2 mask h2 L I02 Lambda radius2).2.1 i j
          * O.ofReal (O.rcos (psi * O.pi / 180))) := by
  have hexp : O.ofReal (delta * O.pi / 180) = O.ofReal delta * O.ofReal O.pi / 180 := by
    rw [map_div₀, map_mul, map_ofNat]
  constructor
  · simp only [generate_incident_field]
    rw [hexp, map_mul]
    ring_nf
  · have hcos : O.pi / 180 * psi = psi * O.pi / 180 := by ring
    simp only [custom_mask_objective_field]
    rw [hexp, hcos, map_mul, map_mul]
    ring_nf

/-- Embedding of the mask call on the quick-test path
(`test_custom_mask_objective_field`, line 233): the source evaluates
`mask_function(rho,phi)`. To make the call arity expressible, the mask
evaluator is modelled as a function of its positional-argument list; the
embedding applies it to exactly the two arguments the code passes, with
the remaining in-scope quantities as unused context. -/
def test_mask_invocation (mask : List ℚ → C) (rho phi radius focus k : ℚ) : C :=
  mask [rho, phi]

/-- The invocation shape asserted by the spec for the quick-test path: a
4-argument call on `(pupil-radius, pupil-angle, aperture-radius,
focal-length)`. -/
def spec_test_mask_invocation (mask : List ℚ → C) (rho phi radius focus k : ℚ) : C :=
  mask [rho, phi, radius, focus]

/-- C9 counterexample: a mask evaluator that reports how many arguments it
received distinguishes the actual quick-test call (2 arguments) from the
claimed 4-argument call. -/
theorem test_mask_not_four_arguments :
    test_mask_invocation (fun l => (l.length : ℚ)) 1 2 3 4 5
      ≠ spec_test_mask_invocation (fun l => (l.length : ℚ)) 1 2 3 4 5 := by
  decide

/-- C9 (amended): on the quick-test path the mask evaluator is invoked as a
2-argument function of (pupil-radius, pupil-angle) only; neither the
aperture radius, the focal length nor the wavenumber is passed. -/
theorem test_mask_two_arguments (C : Type) (mask : List ℚ → C)
    (rho phi radius focus k : ℚ) :
    test_mask_invocation mask rho phi radius focus k = mask [rho, phi] := rfl
